import Mathlib

/-!
Verification of the inventory-cleaning tool in `comb.py`.

The core of the repository is the function `clean_inventory_data`, which
normalizes two text columns of a table (product name and product
reference), partitions the rows into unique and duplicate combinations
keyed on the normalized pair, and produces a list of warning strings.

This file gives a shallow embedding of that function and of the helper
`duplicate_rate` computation from `main`, and proves the frozen claims
about them.  Strings are modelled as `List Char`; cells as a small
`Value` type covering the string, integer and missing (NaN) cells that
pandas distinguishes here.  Whitespace and control-character classes are
modelled over the Latin-1 range, matching Python semantics
(`str.strip`, regex classes backslash-s and backslash-d, and the ranges
x00-x1f / x7f-x9f of the control-stripping regex) on that range.
-/

namespace Comb

/-- Whitespace as recognized by Python `str.strip()` and the regex class
for whitespace, restricted to code points below 256:
tab, LF, VT, FF, CR, FS, GS, RS, US, space, NEL (x85), NBSP (xa0). -/
def isWS (c : Char) : Bool :=
  c.toNat = 9 || c.toNat = 10 || c.toNat = 11 || c.toNat = 12 ||
  c.toNat = 13 || c.toNat = 28 || c.toNat = 29 || c.toNat = 30 ||
  c.toNat = 31 || c.toNat = 32 || c.toNat = 133 || c.toNat = 160

/-- The control characters removed by the cleaning regex
`[x00-x1f x7f-x9f]` (comb.py lines 44 and 58). -/
def isCtrl (c : Char) : Bool :=
  c.toNat ≤ 31 || (127 ≤ c.toNat && c.toNat ≤ 159)

/-- The letters targeted by the o-to-zero correction (comb.py lines 64-66). -/
def isO (c : Char) : Bool :=
  c = 'o' || c = 'O'

/-- Digit test of an optional neighbouring character; `none` (no
neighbour) counts as not a digit, matching a failing regex lookaround. -/
def digitO : Option Char → Bool
  | none => false
  | some c => c.isDigit

/-- Python `str.strip()`: drop whitespace from both ends. -/
def pyStrip (l : List Char) : List Char :=
  ((l.dropWhile isWS).reverse.dropWhile isWS).reverse

/-- The regex substitution replacing every maximal whitespace run by a
single space (comb.py line 43, pattern `backslash-s +` to a space). -/
def collapseWS : List Char → List Char
  | [] => []
  | [c] => [if isWS c then ' ' else c]
  | c :: d :: rest =>
    if isWS c && isWS d then collapseWS (d :: rest)
    else (if isWS c then ' ' else c) :: collapseWS (d :: rest)

/-- The regex substitution deleting every control character
(comb.py lines 44 and 58). -/
def stripCtrl (l : List Char) : List Char :=
  l.filter (fun c => !isCtrl c)

/-- First o-to-zero rule (comb.py line 64): an o or O between two digits
becomes 0.  The regex uses lookarounds, so every replaced position is
judged against the characters of the original string; `p` carries the
original previous character. -/
def rule1Go (p : Option Char) : List Char → List Char
  | [] => []
  | c :: rest =>
    (if isO c && digitO p && digitO rest.head? then '0' else c) ::
      rule1Go (some c) rest

def rule1 (l : List Char) : List Char := rule1Go none l

/-- Second o-to-zero rule (comb.py line 65): an o or O at the start of
the string, immediately followed by a digit, becomes 0. -/
def rule2 : List Char → List Char
  | [] => []
  | [c] => [c]
  | c :: d :: rest =>
    if isO c && d.isDigit then '0' :: d :: rest else c :: d :: rest

/-- Third o-to-zero rule (comb.py line 66): an o or O at the end of the
string, immediately preceded by a digit, becomes 0.  `p` carries the
previous character. -/
def rule3Go (p : Option Char) : List Char → List Char
  | [] => []
  | c :: rest =>
    match rest with
    | [] => [if isO c && digitO p then '0' else c]
    | _ :: _ => c :: rule3Go (some c) rest

def rule3 (l : List Char) : List Char := rule3Go none l

/-- Digit-containment test (comb.py line 61, `str.contains` with the
digit class). -/
def hasDigit (l : List Char) : Bool := l.any Char.isDigit

/-- The three o-to-zero substitutions in source order (comb.py 62-67). -/
def oRules (l : List Char) : List Char := rule3 (rule2 (rule1 l))

/-- The digit-guarded o-to-zero phase: the substitutions run only on
values that contain at least one digit (comb.py lines 61-67). -/
def oPhase (l : List Char) : List Char :=
  if hasDigit l then oRules l else l

/-- Name-column cleaning (comb.py lines 41-44): strip, collapse
whitespace runs to one space, delete control characters. -/
def cleanNameList (l : List Char) : List Char :=
  stripCtrl (collapseWS (pyStrip l))

/-- Reference-column cleaning (comb.py lines 56-67): strip, delete
control characters, then the digit-guarded o-to-zero correction. -/
def cleanRefList (l : List Char) : List Char :=
  oPhase (stripCtrl (pyStrip l))

def cleanNameStr (s : String) : String := String.mk (cleanNameList s.data)

def cleanRefStr (s : String) : String := String.mk (cleanRefList s.data)

/-- A cell of the table: a text value, an integer value, or a missing
value (pandas NaN). -/
inductive Value where
  | vNaN : Value
  | vStr : String → Value
  | vInt : Int → Value
deriving DecidableEq, Repr

/-- pandas `astype(str)`: the string representation of a cell; a missing
value stringifies to the literal text nan. -/
def toStrCell : Value → String
  | Value.vNaN => "nan"
  | Value.vStr s => s
  | Value.vInt n => toString n

/-- pandas `replace` of the whole-cell value nan by the empty string
(comb.py lines 38 and 53). -/
def replaceNan (s : String) : String :=
  if s = "nan" then "" else s

/-- Full per-cell normalization of the name column: stringify, map the
nan marker to empty, then clean (comb.py lines 37-44). -/
def cleanNameCell (v : Value) : Value :=
  Value.vStr (cleanNameStr (replaceNan (toStrCell v)))

/-- Full per-cell normalization of the reference column
(comb.py lines 52-67). -/
def cleanRefCell (v : Value) : Value :=
  Value.vStr (cleanRefStr (replaceNan (toStrCell v)))

/-- A table: ordered column names and ordered rows; each row is the list
of its cell values in column order. -/
structure DataFrame where
  cols : List String
  rows : List (List Value)
deriving DecidableEq, Repr

/-- Cell access by column index; a missing position reads as NaN. -/
def getCell (r : List Value) (i : Nat) : Value :=
  r.getD i Value.vNaN

/-- One row after cleaning: the name column is cleaned first, then the
reference column is cleaned reading the current value, which matters
when both selections denote the same column (comb.py lines 37-67). -/
def cleanRow (ni ri : Nat) (r : List Value) : List Value :=
  let r1 := r.set ni (cleanNameCell (getCell r ni))
  r1.set ri (cleanRefCell (getCell r1 ri))

/-- Index of a selected column name in the column list. -/
def colIdx (df : DataFrame) (c : String) : Nat :=
  df.cols.indexOf c

def cleanedRows (df : DataFrame) (n r : String) : List (List Value) :=
  df.rows.map (cleanRow (colIdx df n) (colIdx df r))

/-- The composite key of a row (comb.py lines 72-73): normalized name,
a pipe character, normalized reference. -/
def keyOfRow (ni ri : Nat) (row : List Value) : String :=
  toStrCell (getCell row ni) ++ "|" ++ toStrCell (getCell row ri)

/-- The (name, reference) pair of a (cleaned) row, as strings. -/
def pairOfRow (ni ri : Nat) (row : List Value) : String × String :=
  (toStrCell (getCell row ni), toStrCell (getCell row ri))

/-- pandas `duplicated(keep=False)` on the key column (comb.py line 75):
a row is flagged iff its key occurs at least twice in the table.  The
key stored in the `_temp_key` column by line 72 is exactly
`keyOfRow` of the cleaned row, because the right-hand side of the
assignment is evaluated before the column is written. -/
def isDupRow (ni ri : Nat) (rows : List (List Value)) (row : List Value) : Bool :=
  2 ≤ rows.countP (fun r2 => keyOfRow ni ri r2 = keyOfRow ni ri row)

/-- The name of the internal key column (comb.py line 72). -/
def tempKeyCol : String := "_temp_key"

/-- Columns of the two output tables (comb.py lines 72-79): line 72
adds the internal key column — overwriting a pre-existing column of
that name in place, otherwise appending a new last column — and lines
78-79 drop it again, so a pre-existing `_temp_key` input column
disappears from both outputs while the appended column cancels out. -/
def outColsOf (df : DataFrame) : List String :=
  if tempKeyCol ∈ df.cols then df.cols.eraseIdx (df.cols.indexOf tempKeyCol)
  else df.cols

/-- One output row (comb.py lines 72-79): the composite key is written
into a pre-existing `_temp_key` column (else appended as a new last
cell) and that column is dropped again after the split. -/
def outRowOf (df : DataFrame) (ni ri : Nat) (row : List Value) : List Value :=
  if tempKeyCol ∈ df.cols then
    (row.set (df.cols.indexOf tempKeyCol)
        (Value.vStr (keyOfRow ni ri row))).eraseIdx (df.cols.indexOf tempKeyCol)
  else
    (row ++ [Value.vStr (keyOfRow ni ri row)]).dropLast

/-- The unique-set rows before the key column is dropped
(comb.py line 78, `cleaned_df[~duplicate_mask]` restricted to the
original columns). -/
def uniquePreRows (df : DataFrame) (n r : String) : List (List Value) :=
  let ni := colIdx df n
  let ri := colIdx df r
  let rows := cleanedRows df n r
  rows.filter (fun row => !isDupRow ni ri rows row)

/-- The duplicate-set rows before the key column is dropped
(comb.py line 79). -/
def dupPreRows (df : DataFrame) (n r : String) : List (List Value) :=
  let ni := colIdx df n
  let ri := colIdx df r
  let rows := cleanedRows df n r
  rows.filter (fun row => isDupRow ni ri rows row)

/-- Rows of the returned unique table (comb.py line 78), after the key
column add and drop. -/
def uniqueRowsOf (df : DataFrame) (n r : String) : List (List Value) :=
  (uniquePreRows df n r).map (outRowOf df (colIdx df n) (colIdx df r))

/-- Rows of the returned duplicate table (comb.py line 79). -/
def dupRowsOf (df : DataFrame) (n r : String) : List (List Value) :=
  (dupPreRows df n r).map (outRowOf df (colIdx df n) (colIdx df r))

/-- Count of name values altered by cleaning (comb.py line 46), the
original column read through `astype(str)`. -/
def namesChangedOf (df : DataFrame) (n : String) : Nat :=
  let ni := colIdx df n
  df.rows.countP
    (fun row => toStrCell (getCell row ni) ≠ toStrCell (cleanNameCell (getCell row ni)))

/-- Count of reference values altered by cleaning (comb.py line 69); the
original is captured after the name pass (comb.py line 49), so it is
read from the name-cleaned rows. -/
def refsChangedOf (df : DataFrame) (n r : String) : Nat :=
  let ni := colIdx df n
  let ri := colIdx df r
  (df.rows.map (fun row => row.set ni (cleanNameCell (getCell row ni)))).countP
    (fun row => toStrCell (getCell row ri) ≠ toStrCell (cleanRefCell (getCell row ri)))

/-- An output cell counted as empty (comb.py lines 88-91): the empty
string, the text nan, or a missing value. -/
def isEmptyCell (v : Value) : Bool :=
  toStrCell v = "" || toStrCell v = "nan" || v = Value.vNaN

/-- Count of empty name values in the unique table (comb.py lines
88-89).  The code reads `unique_df[product_name_col]` after the key
column was dropped; dropping only that column leaves the name cells of
each row unchanged whenever the name column is not the key column (and
when it is, lines 88-96 raise instead of returning), so the count is
taken over the pre-drop rows at the name index. -/
def emptyNamesUniqueOf (df : DataFrame) (n r : String) : Nat :=
  (uniquePreRows df n r).countP (fun row => isEmptyCell (getCell row (colIdx df n)))

/-- Count of empty reference values in the unique table (comb.py lines
90-91); same reading as `emptyNamesUniqueOf`. -/
def emptyRefsUniqueOf (df : DataFrame) (n r : String) : Nat :=
  (uniquePreRows df n r).countP (fun row => isEmptyCell (getCell row (colIdx df r)))

/-- The duplicate groups (comb.py line 99): the distinct (name,
reference) pairs occurring among the duplicate rows, each with its
number of occurrences.  As with the emptiness counts, the grouped name
and reference cells survive the key-column drop unchanged, so the
groups are taken over the pre-drop rows. -/
def groupsOf (df : DataFrame) (n r : String) : List ((String × String) × Nat) :=
  let ni := colIdx df n
  let ri := colIdx df r
  let pairs := (dupPreRows df n r).map (pairOfRow ni ri)
  pairs.dedup.map (fun p => (p, pairs.count p))

/-- Descending order on group occurrence counts (comb.py line 100,
`sort_values(ascending=False)`). -/
def descCount (a b : (String × String) × Nat) : Prop := b.2 ≤ a.2

instance : DecidableRel descCount := fun a b => Nat.decLe b.2 a.2

instance : IsTotal ((String × String) × Nat) descCount :=
  ⟨fun a b => Nat.le_total b.2 a.2⟩

instance : IsTrans ((String × String) × Nat) descCount :=
  ⟨fun _ _ _ h1 h2 => Nat.le_trans h2 h1⟩

def sortedGroupsOf (df : DataFrame) (n r : String) : List ((String × String) × Nat) :=
  List.insertionSort descCount (groupsOf df n r)

/-- The five largest duplicate groups (comb.py line 100, `head(5)`). -/
def top5Of (df : DataFrame) (n r : String) : List ((String × String) × Nat) :=
  (sortedGroupsOf df n r).take 5

/-- Rendering of one duplicate group (comb.py line 105). -/
def renderGroup (g : (String × String) × Nat) : String :=
  "  \u2022 \x27" ++ g.1.1 ++ "\x27 | \x27" ++ g.1.2 ++ "\x27 : " ++ toString g.2 ++ " occurrences"

/-- Message for altered name values (comb.py line 83). -/
def nameMsg (k : Nat) : String :=
  "\u270F\uFE0F " ++ toString k ++ " noms de produits ont \u00E9t\u00E9 nettoy\u00E9s"

/-- Message for altered reference values (comb.py line 85). -/
def refMsg (k : Nat) : String :=
  "🔧 " ++ toString k ++ " r\u00E9f\u00E9rences ont \u00E9t\u00E9 corrig\u00E9es"

/-- Message for empty names in the unique set (comb.py line 94). -/
def emptyNameMsg (k : Nat) : String :=
  "\u26A0\uFE0F " ++ toString k ++ " noms vides dans les donn\u00E9es uniques"

/-- Message for empty references in the unique set (comb.py line 96). -/
def emptyRefMsg (k : Nat) : String :=
  "\u26A0\uFE0F " ++ toString k ++ " r\u00E9f\u00E9rences vides dans les donn\u00E9es uniques"

/-- Message carrying the number of distinct duplicate groups
(comb.py line 102). -/
def countMsg (k : Nat) : String :=
  "🔄 " ++ toString k ++ " groupes de doublons trouv\u00E9s"

def topHeader : String := "Top 5 doublons:"

/-- The four change and emptiness messages (comb.py lines 82-96), each
emitted only when its count is positive. -/
def baseWarnings (nc rc en er : Nat) : List String :=
  (if 0 < nc then [nameMsg nc] else []) ++
  (if 0 < rc then [refMsg rc] else []) ++
  (if 0 < en then [emptyNameMsg en] else []) ++
  (if 0 < er then [emptyRefMsg er] else [])

/-- The duplicate-summary block (comb.py lines 98-105). -/
def dupWarnings (df : DataFrame) (n r : String) : List String :=
  countMsg (groupsOf df n r).length ::
  topHeader ::
  (top5Of df n r).map renderGroup

def warningsOf (df : DataFrame) (n r : String) : List String :=
  baseWarnings (namesChangedOf df n)
    (refsChangedOf df n r)
    (emptyNamesUniqueOf df n r)
    (emptyRefsUniqueOf df n r) ++
  (if (dupRowsOf df n r).isEmpty then [] else dupWarnings df n r)

/-- The embedding of `clean_inventory_data` (comb.py lines 17-107):
column checks, per-cell normalization of the two selected columns,
key-based partition into unique and duplicate rows, warnings. -/
def clean_inventory_data (df : DataFrame) (n r : String) :
    Except String (DataFrame × DataFrame × List String) :=
  if n ∉ df.cols then
    Except.error ("Colonne \x27" ++ n ++ "\x27 non trouv\u00E9e dans le DataFrame")
  else if r ∉ df.cols then
    Except.error ("Colonne \x27" ++ r ++ "\x27 non trouv\u00E9e dans le DataFrame")
  else if n = tempKeyCol ∨ r = tempKeyCol then
    -- When the selected name or reference column is the internal key
    -- column itself, lines 78-79 drop it from the unique table, and the
    -- unconditional accesses of comb.py lines 88-91 then raise a
    -- KeyError that propagates out of the function.
    Except.error "KeyError: \x27_temp_key\x27"
  else
    Except.ok (⟨outColsOf df, uniqueRowsOf df n r⟩,
      ⟨outColsOf df, dupRowsOf df n r⟩, warningsOf df n r)

/-- The duplicate-rate metric (comb.py lines 227-228): the share of
duplicate rows, or 0 when the table is empty. -/
def duplicateRate (total dup : Nat) : ℚ :=
  if 0 < total then ((dup : ℚ) / (total : ℚ)) * 100 else 0


/-! ## General helper lemmas -/

lemma length_filter_not_add_length_filter {α : Type} (l : List α) (p : α → Bool) :
    (l.filter (fun a => !p a)).length + (l.filter p).length = l.length := by
  induction l with
  | nil => rfl
  | cons a t ih =>
    by_cases h : p a = true
    · simp only [List.filter_cons, h, Bool.not_true, List.length_cons]
      simp only [Bool.false_eq_true, if_false, if_true, List.length_cons]
      omega
    · simp only [List.filter_cons, h, Bool.not_eq_true] at *
      simp only [Bool.not_false, if_true, Bool.false_eq_true, if_false, List.length_cons, h]
      omega

lemma getCell_set_ne (r : List Value) (i j : Nat) (v : Value) (h : j ≠ i) :
    getCell (r.set i v) j = getCell r j := by
  unfold getCell
  rw [List.getD_eq_getElem?_getD, List.getD_eq_getElem?_getD,
    List.getElem?_set_ne (fun e => h e.symm)]

lemma cleanRow_frame (ni ri : Nat) (r : List Value) (j : Nat)
    (hn : j ≠ ni) (hr : j ≠ ri) :
    getCell (cleanRow ni ri r) j = getCell r j := by
  unfold cleanRow
  rw [getCell_set_ne _ _ _ _ hr, getCell_set_ne _ _ _ _ hn]

/-- Destructor for a successful run of `clean_inventory_data`. -/
lemma clean_ok {df : DataFrame} {n r : String} {u d : DataFrame} {w : List String}
    (h : clean_inventory_data df n r = Except.ok (u, d, w)) :
    u = ⟨outColsOf df, uniqueRowsOf df n r⟩ ∧
      d = ⟨outColsOf df, dupRowsOf df n r⟩ ∧ w = warningsOf df n r := by
  unfold clean_inventory_data at h
  split at h
  · exact absurd h (by simp)
  · split at h
    · exact absurd h (by simp)
    · split at h
      · exact absurd h (by simp)
      · rw [Except.ok.injEq, Prod.mk.injEq, Prod.mk.injEq] at h
        exact ⟨h.1.symm, h.2.1.symm, h.2.2.symm⟩

/-- Without a `_temp_key` input column, appending the key cell and then
dropping the last column restores every row exactly. -/
lemma outRowOf_no_temp {df : DataFrame} (ni ri : Nat) (row : List Value)
    (h : tempKeyCol ∉ df.cols) : outRowOf df ni ri row = row := by
  unfold outRowOf
  rw [if_neg h]
  exact List.dropLast_concat

lemma outColsOf_no_temp {df : DataFrame} (h : tempKeyCol ∉ df.cols) :
    outColsOf df = df.cols := by
  unfold outColsOf
  rw [if_neg h]

lemma uniqueRowsOf_no_temp {df : DataFrame} {n r : String}
    (h : tempKeyCol ∉ df.cols) :
    uniqueRowsOf df n r = uniquePreRows df n r := by
  unfold uniqueRowsOf
  have he : (uniquePreRows df n r).map (outRowOf df (colIdx df n) (colIdx df r)) =
      (uniquePreRows df n r).map id :=
    List.map_eq_map_iff.mpr (fun a _ => outRowOf_no_temp _ _ a h)
  rw [he, List.map_id]

lemma dupRowsOf_no_temp {df : DataFrame} {n r : String}
    (h : tempKeyCol ∉ df.cols) :
    dupRowsOf df n r = dupPreRows df n r := by
  unfold dupRowsOf
  have he : (dupPreRows df n r).map (outRowOf df (colIdx df n) (colIdx df r)) =
      (dupPreRows df n r).map id :=
    List.map_eq_map_iff.mpr (fun a _ => outRowOf_no_temp _ _ a h)
  rw [he, List.map_id]

/-! ## Claim theorems, first group -/

/-- C2 counterexample: with a pre-existing `_temp_key` input column the
outputs drop that column (comb.py lines 72-79), so the cleaned row
(k, v) appears in neither returned set even though the call succeeds —
never-neither fails as stated over all tables. -/
theorem C2_counterexample :
    clean_inventory_data ⟨["_temp_key", "b"], [[Value.vStr "k", Value.vStr "v"]]⟩
        "b" "b" =
      Except.ok (⟨["b"], [[Value.vStr "v"]]⟩, ⟨["b"], []⟩, ([] : List String)) ∧
    [Value.vStr "k", Value.vStr "v"] ∈
      cleanedRows ⟨["_temp_key", "b"], [[Value.vStr "k", Value.vStr "v"]]⟩ "b" "b" ∧
    [Value.vStr "k", Value.vStr "v"] ∉
      uniqueRowsOf ⟨["_temp_key", "b"], [[Value.vStr "k", Value.vStr "v"]]⟩ "b" "b" ∧
    [Value.vStr "k", Value.vStr "v"] ∉
      dupRowsOf ⟨["_temp_key", "b"], [[Value.vStr "k", Value.vStr "v"]]⟩ "b" "b" := by
  refine ⟨by rfl, by decide, by decide, by decide⟩

/-- C2 amended: the two set sizes always add up to the number of rows
of the input table, and for every table without a pre-existing
`_temp_key` column every cleaned row lies in exactly one of the unique
and duplicate sets, never both and never neither.  (With such a column
the outputs drop it, so the cleaned rows themselves are not rows of the
outputs.) -/
theorem C2_partition_exact (df : DataFrame) (n r : String) (u d : DataFrame)
    (w : List String) (h : clean_inventory_data df n r = Except.ok (u, d, w)) :
    u.rows.length + d.rows.length = df.rows.length ∧
    (tempKeyCol ∉ df.cols →
      ∀ row ∈ cleanedRows df n r,
        (row ∈ u.rows ∧ row ∉ d.rows) ∨ (row ∈ d.rows ∧ row ∉ u.rows)) := by
  obtain ⟨hu, hd, -⟩ := clean_ok h
  subst hu hd
  constructor
  · show (uniqueRowsOf df n r).length + (dupRowsOf df n r).length = df.rows.length
    unfold uniqueRowsOf dupRowsOf
    rw [List.length_map, List.length_map]
    unfold uniquePreRows dupPreRows
    rw [length_filter_not_add_length_filter]
    unfold cleanedRows
    exact List.length_map _ _
  · intro htemp row hrow
    show (row ∈ uniqueRowsOf df n r ∧ row ∉ dupRowsOf df n r) ∨
      (row ∈ dupRowsOf df n r ∧ row ∉ uniqueRowsOf df n r)
    rw [uniqueRowsOf_no_temp htemp, dupRowsOf_no_temp htemp]
    by_cases hdup :
        isDupRow (colIdx df n) (colIdx df r) (cleanedRows df n r) row = true
    · right
      unfold dupPreRows uniquePreRows
      constructor
      · exact List.mem_filter.mpr ⟨hrow, hdup⟩
      · intro hmem
        have := (List.mem_filter.mp hmem).2
        rw [hdup] at this
        exact absurd this (by simp)
    · left
      unfold dupPreRows uniquePreRows
      constructor
      · exact List.mem_filter.mpr ⟨hrow, by simp [hdup]⟩
      · intro hmem
        exact hdup (List.mem_filter.mp hmem).2

/-- C5: per-cell normalization first coerces the cell to its string
representation, then maps the nan marker (produced by missing values and
by any value whose string form is the word nan) to the empty string,
before the remaining cleaning rules run; such cells therefore normalize
to the empty string. -/
theorem C5_nan_to_empty (v : Value) :
    cleanNameCell v = Value.vStr (cleanNameStr (replaceNan (toStrCell v))) ∧
    cleanRefCell v = Value.vStr (cleanRefStr (replaceNan (toStrCell v))) ∧
    toStrCell Value.vNaN = "nan" ∧
    (toStrCell v = "nan" →
      replaceNan (toStrCell v) = "" ∧
      cleanNameCell v = Value.vStr "" ∧ cleanRefCell v = Value.vStr "") := by
  refine ⟨rfl, rfl, rfl, fun h => ?_⟩
  unfold cleanNameCell cleanRefCell
  rw [h]
  exact ⟨rfl, rfl, rfl⟩

/-- C5 witness: the string cell nan normalizes to the empty string. -/
theorem C5_nan_to_empty_witness :
    replaceNan (toStrCell (Value.vStr "nan")) = "" ∧
    cleanNameCell (Value.vStr "nan") = Value.vStr "" ∧
    cleanRefCell (Value.vStr "nan") = Value.vStr "" :=
  (C5_nan_to_empty (Value.vStr "nan")).2.2.2 rfl

/-- C6: when the requested name or reference column is absent from the
table, `clean_inventory_data` fails with the missing-column error; the
guard is the first step of the function, before any transform. -/
theorem C6_missing_column (df : DataFrame) (n r : String)
    (h : n ∉ df.cols ∨ r ∉ df.cols) :
    ∃ msg, clean_inventory_data df n r = Except.error msg := by
  unfold clean_inventory_data
  by_cases hn : n ∈ df.cols
  · have hr : r ∉ df.cols := h.resolve_left (fun hc => hc hn)
    exact ⟨_, by rw [if_neg (not_not.mpr hn), if_pos hr]⟩
  · exact ⟨_, by rw [if_pos hn]⟩

/-- C6 witness: selecting an absent column yields an error on a concrete
table. -/
theorem C6_missing_column_witness :
    ("b" ∉ (⟨["a"], []⟩ : DataFrame).cols ∨ "a" ∉ (⟨["a"], []⟩ : DataFrame).cols) ∧
    ∃ msg, clean_inventory_data ⟨["a"], []⟩ "b" "a" = Except.error msg :=
  ⟨Or.inl (by decide), C6_missing_column ⟨["a"], []⟩ "b" "a" (Or.inl (by decide))⟩

/-- C7 counterexample: a zero-row table whose first column is named
_temp_key, selected as the name column.  Lines 78-79 drop that column
from the unique table and the unconditional access of line 88 then
raises, so the cleaning returns an error instead of the empty
partitions the claim promises for every zero-row input. -/
theorem C7_counterexample :
    (⟨["_temp_key", "a"], []⟩ : DataFrame).rows = [] ∧
    "_temp_key" ∈ (⟨["_temp_key", "a"], []⟩ : DataFrame).cols ∧
    "a" ∈ (⟨["_temp_key", "a"], []⟩ : DataFrame).cols ∧
    clean_inventory_data ⟨["_temp_key", "a"], []⟩ "_temp_key" "a" =
      Except.error "KeyError: \x27_temp_key\x27" := by
  refine ⟨rfl, by decide, by decide, by rfl⟩

/-- C7 amended: on a zero-row table whose columns do not include the
internal key name _temp_key, the cleaning returns empty unique and
duplicate sets and an empty warning list, and the duplicate rate is 0
rather than a division error. -/
theorem C7_empty_input (df : DataFrame) (n r : String)
    (hrows : df.rows = []) (hn : n ∈ df.cols) (hr : r ∈ df.cols)
    (htemp : tempKeyCol ∉ df.cols) :
    clean_inventory_data df n r = Except.ok (⟨df.cols, []⟩, ⟨df.cols, []⟩, []) ∧
    duplicateRate df.rows.length (dupRowsOf df n r).length = 0 := by
  have h0 : uniquePreRows df n r = [] := by
    unfold uniquePreRows cleanedRows
    rw [hrows]
    rfl
  have h1 : uniqueRowsOf df n r = [] := by
    unfold uniqueRowsOf
    rw [h0]
    rfl
  have h2 : dupRowsOf df n r = [] := by
    unfold dupRowsOf dupPreRows cleanedRows
    rw [hrows]
    rfl
  have h3 : warningsOf df n r = [] := by
    unfold warningsOf
    rw [h2]
    simp [baseWarnings, namesChangedOf, refsChangedOf, emptyNamesUniqueOf,
      emptyRefsUniqueOf, hrows, h0]
  have hkey : ¬(n = tempKeyCol ∨ r = tempKeyCol) := by
    rintro (he | he)
    · exact htemp (he ▸ hn)
    · exact htemp (he ▸ hr)
  constructor
  · unfold clean_inventory_data
    rw [if_neg (not_not.mpr hn), if_neg (not_not.mpr hr), if_neg hkey, h1, h2, h3,
      outColsOf_no_temp htemp]
  · rw [hrows]
    rfl

/-- C7 witness: a concrete zero-row table. -/
theorem C7_empty_input_witness :
    (⟨["a", "b"], []⟩ : DataFrame).rows = [] ∧
    "a" ∈ (⟨["a", "b"], []⟩ : DataFrame).cols ∧
    "b" ∈ (⟨["a", "b"], []⟩ : DataFrame).cols ∧
    tempKeyCol ∉ (⟨["a", "b"], []⟩ : DataFrame).cols ∧
    (clean_inventory_data ⟨["a", "b"], []⟩ "a" "b" =
        Except.ok (⟨["a", "b"], []⟩, ⟨["a", "b"], []⟩, []) ∧
      duplicateRate (⟨["a", "b"], []⟩ : DataFrame).rows.length
        (dupRowsOf ⟨["a", "b"], []⟩ "a" "b").length = 0) :=
  ⟨rfl, by decide, by decide, by decide,
    C7_empty_input ⟨["a", "b"], []⟩ "a" "b" rfl (by decide) (by decide) (by decide)⟩

/-- C9 counterexample: a table with a pre-existing _temp_key column.
The call succeeds but both outputs lack that column — its values are
overwritten by the internal key at line 72 and dropped at lines 78-79 —
so the outputs do not have exactly the input columns. -/
theorem C9_counterexample :
    clean_inventory_data
        ⟨["_temp_key", "b"], [[Value.vStr "x", Value.vStr "y"]]⟩ "b" "b" =
      Except.ok (⟨["b"], [[Value.vStr "y"]]⟩, ⟨["b"], []⟩, ([] : List String)) ∧
    (["b"] : List String) ≠ ["_temp_key", "b"] := by
  refine ⟨by rfl, by decide⟩

/-- C9 amended: for every input table without a pre-existing _temp_key
column, both output tables carry exactly the input column list, and
every output row agrees with an input row on all columns other than the
two selected ones.  (A pre-existing _temp_key column is overwritten by
the internal key and dropped from both outputs.) -/
theorem C9_frame_other_columns (df : DataFrame) (n r : String) (u d : DataFrame)
    (w : List String) (h : clean_inventory_data df n r = Except.ok (u, d, w))
    (htemp : tempKeyCol ∉ df.cols) :
    u.cols = df.cols ∧ d.cols = df.cols ∧
    (∀ row ∈ u.rows, ∃ orig ∈ df.rows, ∀ j, j ≠ colIdx df n → j ≠ colIdx df r →
      getCell row j = getCell orig j) ∧
    (∀ row ∈ d.rows, ∃ orig ∈ df.rows, ∀ j, j ≠ colIdx df n → j ≠ colIdx df r →
      getCell row j = getCell orig j) := by
  obtain ⟨hu, hd, -⟩ := clean_ok h
  subst hu hd
  refine ⟨outColsOf_no_temp htemp, outColsOf_no_temp htemp, ?_, ?_⟩
  · intro row hrow
    have hrow2 : row ∈ uniquePreRows df n r := by
      rw [← uniqueRowsOf_no_temp htemp]
      exact hrow
    have hmem : row ∈ cleanedRows df n r := (List.mem_filter.mp hrow2).1
    obtain ⟨orig, ho, heq⟩ := List.mem_map.mp hmem
    exact ⟨orig, ho, fun j hjn hjr => by
      rw [← heq, cleanRow_frame _ _ _ _ hjn hjr]⟩
  · intro row hrow
    have hrow2 : row ∈ dupPreRows df n r := by
      rw [← dupRowsOf_no_temp htemp]
      exact hrow
    have hmem : row ∈ cleanedRows df n r := (List.mem_filter.mp hrow2).1
    obtain ⟨orig, ho, heq⟩ := List.mem_map.mp hmem
    exact ⟨orig, ho, fun j hjn hjr => by
      rw [← heq, cleanRow_frame _ _ _ _ hjn hjr]⟩

/-- Example table from the specification (section 8). -/
def dfEx : DataFrame :=
  ⟨["designation", "reference"],
    [[Value.vStr "Produit A", Value.vStr "REF001"],
     [Value.vStr "Produit B", Value.vStr "REF002"],
     [Value.vStr "Produit A", Value.vStr "REF001"],
     [Value.vStr "Produit C", Value.vStr "REF003"]]⟩

def uEx : DataFrame :=
  ⟨["designation", "reference"],
    [[Value.vStr "Produit B", Value.vStr "REF002"],
     [Value.vStr "Produit C", Value.vStr "REF003"]]⟩

def dEx : DataFrame :=
  ⟨["designation", "reference"],
    [[Value.vStr "Produit A", Value.vStr "REF001"],
     [Value.vStr "Produit A", Value.vStr "REF001"]]⟩

def wEx : List String :=
  ["🔄 1 groupes de doublons trouvés", "Top 5 doublons:",
   "  • \x27Produit A\x27 | \x27REF001\x27 : 2 occurrences"]

/-- C2 witness: the partition invariant on the concrete example table,
which has no _temp_key column. -/
theorem C2_partition_exact_witness :
    clean_inventory_data dfEx "designation" "reference" = Except.ok (uEx, dEx, wEx) ∧
    tempKeyCol ∉ dfEx.cols ∧
    (uEx.rows.length + dEx.rows.length = dfEx.rows.length ∧
      ∀ row ∈ cleanedRows dfEx "designation" "reference",
        (row ∈ uEx.rows ∧ row ∉ dEx.rows) ∨ (row ∈ dEx.rows ∧ row ∉ uEx.rows)) :=
  ⟨by rfl, by decide,
    (C2_partition_exact dfEx "designation" "reference" uEx dEx wEx (by rfl)).1,
    (C2_partition_exact dfEx "designation" "reference" uEx dEx wEx (by rfl)).2
      (by decide)⟩

/-- C9 witness: the frame property on the concrete example table, which
has no _temp_key column. -/
theorem C9_frame_other_columns_witness :
    clean_inventory_data dfEx "designation" "reference" = Except.ok (uEx, dEx, wEx) ∧
    tempKeyCol ∉ dfEx.cols ∧
    (uEx.cols = dfEx.cols ∧ dEx.cols = dfEx.cols ∧
      (∀ row ∈ uEx.rows, ∃ orig ∈ dfEx.rows,
        ∀ j, j ≠ colIdx dfEx "designation" → j ≠ colIdx dfEx "reference" →
          getCell row j = getCell orig j) ∧
      (∀ row ∈ dEx.rows, ∃ orig ∈ dfEx.rows,
        ∀ j, j ≠ colIdx dfEx "designation" → j ≠ colIdx dfEx "reference" →
          getCell row j = getCell orig j)) :=
  ⟨by rfl, by decide,
    C9_frame_other_columns dfEx "designation" "reference" uEx dEx wEx (by rfl)
      (by decide)⟩

lemma countP_congr_on {α : Type} (l : List α) (p q : α → Bool)
    (h : ∀ a ∈ l, p a = q a) : l.countP p = l.countP q := by
  induction l with
  | nil => rfl
  | cons a t ih =>
    rw [List.countP_cons, List.countP_cons, h a (List.mem_cons_self a t),
      ih (fun b hb => h b (List.mem_cons_of_mem a hb))]

lemma append_pipe_inj (xs ys us vs : List Char)
    (hx : '|' ∉ xs) (hu : '|' ∉ us)
    (h : xs ++ '|' :: ys = us ++ '|' :: vs) : xs = us ∧ ys = vs := by
  induction xs generalizing us with
  | nil =>
    cases us with
    | nil => simpa using h
    | cons b bs =>
      rw [List.nil_append, List.cons_append, List.cons.injEq] at h
      exact absurd (h.1 ▸ List.mem_cons_self b bs) (h.1 ▸ hu)
  | cons a as ih =>
    cases us with
    | nil =>
      rw [List.cons_append, List.nil_append, List.cons.injEq] at h
      exact absurd (h.1 ▸ List.mem_cons_self a as) (fun hc => hx (h.1 ▸ hc))
    | cons b bs =>
      rw [List.cons_append, List.cons_append, List.cons.injEq] at h
      have hx2 : '|' ∉ as := fun hc => hx (List.mem_cons_of_mem a hc)
      have hu2 : '|' ∉ bs := fun hc => hu (List.mem_cons_of_mem b hc)
      obtain ⟨he, hys⟩ := ih bs hx2 hu2 h.2
      exact ⟨by rw [h.1, he], hys⟩

/-- Without a pipe in either component, equal composite keys mean equal
(name, reference) pairs. -/
lemma key_eq_iff_pair_eq (ni ri : Nat) (r1 r2 : List Value)
    (h1n : '|' ∉ (toStrCell (getCell r1 ni)).data)
    (h2n : '|' ∉ (toStrCell (getCell r2 ni)).data) :
    (keyOfRow ni ri r1 = keyOfRow ni ri r2) ↔
      (pairOfRow ni ri r1 = pairOfRow ni ri r2) := by
  constructor
  · intro h
    have hd : (keyOfRow ni ri r1).data = (keyOfRow ni ri r2).data := by rw [h]
    unfold keyOfRow at hd
    have hd2 : (toStrCell (getCell r1 ni)).data ++ '|' :: (toStrCell (getCell r1 ri)).data =
        (toStrCell (getCell r2 ni)).data ++ '|' :: (toStrCell (getCell r2 ri)).data := by
      simpa [List.append_assoc] using hd
    obtain ⟨hn, hr⟩ := append_pipe_inj _ _ _ _ h1n h2n hd2
    unfold pairOfRow
    rw [Prod.mk.injEq]
    exact ⟨String.ext hn, String.ext hr⟩
  · intro h
    unfold pairOfRow at h
    rw [Prod.mk.injEq] at h
    unfold keyOfRow
    rw [h.1, h.2]

/-- C1 amended: a row is in the duplicate set iff at least one other row
shares its composite key; when no normalized name or reference value
contains the pipe separator, this is the same as at least one other row
sharing the (normalized name, normalized reference) pair — stated below
as the pair occurring at least twice among the normalized rows — and for
tables without a pre-existing _temp_key column the duplicate rows are
the cleaned rows themselves.  Rows not in the duplicate set are in the
unique set. -/
theorem C1_duplicate_iff_pair (df : DataFrame) (n r : String) (u d : DataFrame)
    (w : List String) (h : clean_inventory_data df n r = Except.ok (u, d, w))
    (htemp : tempKeyCol ∉ df.cols)
    (hfree : ∀ row ∈ cleanedRows df n r,
      '|' ∉ (toStrCell (getCell row (colIdx df n))).data) :
    ∀ row ∈ cleanedRows df n r,
      (row ∈ d.rows ↔
        2 ≤ (cleanedRows df n r).countP
          (fun r2 => pairOfRow (colIdx df n) (colIdx df r) r2 =
            pairOfRow (colIdx df n) (colIdx df r) row)) ∧
      (row ∉ d.rows → row ∈ u.rows) := by
  obtain ⟨hu, hd, -⟩ := clean_ok h
  subst hu hd
  intro row hrow
  have hcount : (cleanedRows df n r).countP
      (fun r2 => keyOfRow (colIdx df n) (colIdx df r) r2 =
        keyOfRow (colIdx df n) (colIdx df r) row) =
      (cleanedRows df n r).countP
      (fun r2 => pairOfRow (colIdx df n) (colIdx df r) r2 =
        pairOfRow (colIdx df n) (colIdx df r) row) := by
    apply countP_congr_on
    intro a ha
    have := key_eq_iff_pair_eq (colIdx df n) (colIdx df r) a row
      (hfree a ha) (hfree row hrow)
    by_cases hk : keyOfRow (colIdx df n) (colIdx df r) a =
        keyOfRow (colIdx df n) (colIdx df r) row
    · simp [hk, this.mp hk]
    · have hp : ¬ pairOfRow (colIdx df n) (colIdx df r) a =
          pairOfRow (colIdx df n) (colIdx df r) row := fun hp => hk (this.mpr hp)
      simp [hk, hp]
  constructor
  · show row ∈ dupRowsOf df n r ↔ _
    rw [dupRowsOf_no_temp htemp]
    show row ∈ (cleanedRows df n r).filter _ ↔ _
    rw [List.mem_filter]
    unfold isDupRow
    rw [decide_eq_true_iff, hcount]
    exact ⟨fun hx => hx.2, fun hx => ⟨hrow, hx⟩⟩
  · intro hnd
    show row ∈ uniqueRowsOf df n r
    rw [uniqueRowsOf_no_temp htemp]
    show row ∈ (cleanedRows df n r).filter _
    rw [List.mem_filter]
    refine ⟨hrow, ?_⟩
    by_cases hdup : isDupRow (colIdx df n) (colIdx df r) (cleanedRows df n r) row = true
    · have hmem : row ∈ dupRowsOf df n r := by
        rw [dupRowsOf_no_temp htemp]
        exact List.mem_filter.mpr ⟨hrow, hdup⟩
      exact absurd hmem hnd
    · simp [hdup]

/-- C1 counterexample: with the table rows (a|b, c) and (a, b|c) both
composite keys are the text a|b|c, so the first row lands in the
duplicate set even though no other row shares its normalized
(name, reference) pair — the pipe separator does occur in values, so the
claimed guarantee fails. -/
theorem C1_counterexample :
    [Value.vStr "a|b", Value.vStr "c"] ∈
      dupRowsOf ⟨["n", "r"],
        [[Value.vStr "a|b", Value.vStr "c"],
         [Value.vStr "a", Value.vStr "b|c"]]⟩ "n" "r" ∧
    (cleanedRows ⟨["n", "r"],
        [[Value.vStr "a|b", Value.vStr "c"],
         [Value.vStr "a", Value.vStr "b|c"]]⟩ "n" "r").countP
      (fun r2 => pairOfRow 0 1 r2 = pairOfRow 0 1 [Value.vStr "a|b", Value.vStr "c"]) =
      1 := by
  constructor
  · decide
  · decide

/-- C1 witness: the amended statement on the concrete example table,
which has no _temp_key column and whose values are pipe-free. -/
theorem C1_duplicate_iff_pair_witness :
    clean_inventory_data dfEx "designation" "reference" = Except.ok (uEx, dEx, wEx) ∧
    (∀ row ∈ cleanedRows dfEx "designation" "reference",
      (row ∈ dEx.rows ↔
        2 ≤ (cleanedRows dfEx "designation" "reference").countP
          (fun r2 => pairOfRow (colIdx dfEx "designation") (colIdx dfEx "reference") r2 =
            pairOfRow (colIdx dfEx "designation") (colIdx dfEx "reference") row)) ∧
      (row ∉ dEx.rows → row ∈ uEx.rows)) :=
  ⟨by rfl, C1_duplicate_iff_pair dfEx "designation" "reference" uEx dEx wEx
    (by rfl) (by decide) (by decide)⟩

lemma digitO_none : digitO none = false := rfl

lemma digitO_some (c : Char) : digitO (some c) = c.isDigit := rfl

lemma isO_not_digit {c : Char} (h : isO c = true) : c.isDigit = false := by
  have h2 : c = 'o' ∨ c = 'O' := by simpa [isO] using h
  rcases h2 with h1 | h1 <;> (subst h1; rfl)

lemma digit_not_isO {c : Char} (h : c.isDigit = true) : isO c = false := by
  cases ho : isO c
  · rfl
  · rw [isO_not_digit ho] at h
    cases h

lemma rule1Go_cons (p : Option Char) (c : Char) (rest : List Char) :
    rule1Go p (c :: rest) =
      (if isO c && digitO p && digitO rest.head? then '0' else c) ::
        rule1Go (some c) rest := rfl

lemma rule2_cons (c d : Char) (t : List Char) :
    rule2 (c :: d :: t) =
      if isO c && d.isDigit then '0' :: d :: t else c :: d :: t := rfl

lemma rule3Go_one (p : Option Char) (c : Char) :
    rule3Go p [c] = [if isO c && digitO p then '0' else c] := rfl

lemma rule3Go_cons (p : Option Char) (c d : Char) (t : List Char) :
    rule3Go p (c :: d :: t) = c :: rule3Go (some c) (d :: t) := rfl

/-- Firing condition of the specification statement: an o or O, and
either between two digits, or at the start (no previous character)
followed by a digit, or at the end (no next character) preceded by a
digit.  `nd` says whether the next character is a digit, `e` whether
the position is last. -/
def fireS (p : Option Char) (c : Char) (nd e : Bool) : Bool :=
  isO c && ((digitO p && nd) || (p.isNone && nd) || (e && digitO p))

/-- Modelled from the spec: the single-pass form of the o-to-zero
correction, replacing o or O by 0 exactly between two digits, at the
start when immediately followed by a digit, and at the end when
immediately preceded by a digit, every position judged against the
input string.  `p` carries the previous input character. -/
def simulGo (p : Option Char) : List Char → List Char
  | [] => []
  | c :: rest =>
    (if fireS p c (digitO rest.head?) rest.isEmpty then '0' else c) ::
      simulGo (some c) rest

def simulO (l : List Char) : List Char := simulGo none l

lemma simulGo_cons (p : Option Char) (c : Char) (rest : List Char) :
    simulGo p (c :: rest) =
      (if fireS p c (digitO rest.head?) rest.isEmpty then '0' else c) ::
        simulGo (some c) rest := rfl

/-- Combined form of the first two rules. -/
def simul12Go (p : Option Char) : List Char → List Char
  | [] => []
  | c :: rest =>
    (if isO c && digitO rest.head? && (digitO p || p.isNone) then '0' else c) ::
      simul12Go (some c) rest

lemma simul12Go_cons (p : Option Char) (c : Char) (rest : List Char) :
    simul12Go p (c :: rest) =
      (if isO c && digitO rest.head? && (digitO p || p.isNone) then '0' else c) ::
        simul12Go (some c) rest := rfl

/-- Away from the first position the combined form is the first rule. -/
lemma simul12Go_eq_rule1Go (l : List Char) :
    ∀ c : Char, simul12Go (some c) l = rule1Go (some c) l := by
  induction l with
  | nil => intro c; rfl
  | cons d rest ih =>
    intro c
    rw [simul12Go_cons, rule1Go_cons, ih d]
    congr 1
    have : (isO d && digitO rest.head? && (digitO (some c) || (some c).isNone)) =
        (isO d && digitO (some c) && digitO rest.head?) := by
      cases isO d <;> cases digitO rest.head? <;> cases digitO (some c) <;> rfl
    rw [this]

/-- The second rule applied after the first equals the combined form. -/
lemma rule2_rule1 (l : List Char) : rule2 (rule1 l) = simul12Go none l := by
  cases l with
  | nil => rfl
  | cons c rest =>
    cases rest with
    | nil =>
      show rule2 (rule1Go none [c]) = simul12Go none [c]
      rw [rule1Go_cons, simul12Go_cons]
      simp only [List.head?_nil, digitO_none, Bool.and_false, Bool.false_and,
        Bool.false_eq_true, if_false]
      rfl
    | cons d rest2 =>
      show rule2 (rule1Go none (c :: d :: rest2)) = simul12Go none (c :: d :: rest2)
      rw [rule1Go_cons, rule1Go_cons, simul12Go_cons, simul12Go_eq_rule1Go (d :: rest2) c,
        rule1Go_cons]
      rw [digitO_none]
      simp only [Bool.and_false, Bool.false_and, Bool.false_or, if_false,
        Bool.false_eq_true, Option.isNone_none, Bool.true_and, Bool.and_true]
      cases hio : isO c
      · simp only [Bool.false_and, Bool.false_eq_true, if_false]
        rw [rule2_cons, hio]
        simp
      · have hcd : c.isDigit = false := isO_not_digit hio
        rw [show (d :: rest2).head? = some d from rfl, digitO_some, digitO_some, hcd]
        simp only [Bool.and_false, Bool.false_and, Bool.false_eq_true, if_false,
          Bool.true_and]
        rw [rule2_cons, hio]
        simp only [Bool.true_and]
        cases hd : d.isDigit <;> simp

lemma fire_eq (p : Option Char) (c : Char) (nd : Bool) :
    (isO c && nd && (digitO p || p.isNone)) = fireS p c nd false := by
  unfold fireS
  cases isO c <;> cases nd <;> cases digitO p <;> cases p.isNone <;> rfl

lemma fireS_nd {p : Option Char} {c : Char} {nd : Bool}
    (h : fireS p c nd false = true) : nd = true := by
  cases hnd : nd
  · rw [hnd] at h
    unfold fireS at h
    simp at h
  · rfl

lemma simulGo_isEmpty (p : Option Char) (l : List Char) :
    (simulGo p l).isEmpty = l.isEmpty := by
  cases l <;> rfl

lemma simulGo_head_digit (c : Char) (rest : List Char) (h : isO c = true) :
    digitO (simulGo (some c) rest).head? = digitO rest.head? := by
  cases rest with
  | nil => rfl
  | cons d r2 =>
    rw [simulGo_cons]
    show digitO (some (if fireS (some c) d (digitO r2.head?) r2.isEmpty
      then '0' else d)) = digitO (some d)
    have hfd : fireS (some c) d (digitO r2.head?) r2.isEmpty = false := by
      unfold fireS
      rw [digitO_some, isO_not_digit h]
      show (isO d && ((false && _) || ((some c).isNone && _) || (_ && false))) = false
      cases isO d <;> cases digitO r2.head? <;> cases r2.isEmpty <;> rfl
    rw [hfd]
    simp only [Bool.false_eq_true, if_false]

/-- The third rule applied after the combined first two equals the full
simultaneous form; `q` is the transformed previous character, `p` the
original one. -/
lemma rule3_simul12 (l : List Char) :
    ∀ p q : Option Char, (q = p ∨ (q = some '0' ∧ digitO l.head? = true)) →
      rule3Go q (simul12Go p l) = simulGo p l := by
  induction l with
  | nil => intro p q _; rfl
  | cons c rest ih =>
    intro p q hq
    cases rest with
    | nil =>
      rw [simul12Go_cons, simulGo_cons]
      simp only [List.head?_nil, digitO_none, Bool.and_false, Bool.false_and,
        Bool.false_eq_true, if_false, List.isEmpty_nil]
      show rule3Go q [c] = [if fireS p c false true then '0' else c]
      rw [rule3Go_one]
      have hS : fireS p c false true = (isO c && digitO p) := by
        unfold fireS
        cases isO c <;> cases digitO p <;> cases p.isNone <;> rfl
      rw [hS]
      rcases hq with hq | ⟨hq, hd⟩
      · rw [hq]
      · rw [hq]
        have hdc : digitO ((c :: ([] : List Char)).head?) = true := hd
        rw [show ((c :: ([] : List Char)).head?) = some c from rfl, digitO_some] at hdc
        rw [digit_not_isO hdc]
        rfl
    | cons d rest2 =>
      rw [simul12Go_cons, simulGo_cons, simul12Go_cons]
      rw [rule3Go_cons]
      rw [← simul12Go_cons]
      have hfe : (isO c && digitO (d :: rest2).head? && (digitO p || p.isNone)) =
          fireS p c (digitO (d :: rest2).head?) (d :: rest2).isEmpty := by
        rw [show (d :: rest2).isEmpty = false from rfl]
        exact fire_eq p c _
      rw [hfe]
      congr 1
      by_cases hcond : fireS p c (digitO (d :: rest2).head?) (d :: rest2).isEmpty = true
      · rw [hcond]
        simp only [if_true]
        apply ih
        right
        refine ⟨rfl, ?_⟩
        rw [show (d :: rest2).isEmpty = false from rfl] at hcond
        exact fireS_nd hcond
      · rw [Bool.not_eq_true] at hcond
        rw [hcond]
        simp only [Bool.false_eq_true, if_false]
        exact ih (some c) (some c) (Or.inl rfl)

/-- The three sequential substitutions equal the simultaneous form. -/
lemma oRules_eq_simulO (l : List Char) : oRules l = simulO l := by
  unfold oRules rule3 rule1 simulO
  rw [show rule2 (rule1Go none l) = simul12Go none l from rule2_rule1 l]
  exact rule3_simul12 l none none (Or.inl rfl)

/-- The simultaneous form is idempotent. -/
lemma simulGo_idem (l : List Char) :
    ∀ p q : Option Char, (q = p ∨ (q = some '0' ∧ digitO l.head? = true)) →
      simulGo q (simulGo p l) = simulGo p l := by
  induction l with
  | nil => intro p q _; rfl
  | cons c rest ih =>
    intro p q hq
    rw [simulGo_cons]
    by_cases hfire : fireS p c (digitO rest.head?) rest.isEmpty = true
    · rw [hfire]
      simp only [if_true]
      rw [simulGo_cons]
      have h0 : fireS q '0' (digitO (simulGo (some c) rest).head?)
          (simulGo (some c) rest).isEmpty = false := by
        unfold fireS
        rfl
      rw [h0]
      simp only [Bool.false_eq_true, if_false]
      congr 1
      have hnd : rest = [] ∨ digitO rest.head? = true := by
        cases hrest : rest with
        | nil => exact Or.inl rfl
        | cons d rest2 =>
          right
          rw [hrest] at hfire
          rw [show (d :: rest2).isEmpty = false from rfl] at hfire
          exact fireS_nd hfire
      rcases hnd with h | h
      · rw [h]
        rfl
      · exact ih (some c) (some '0') (Or.inr ⟨rfl, h⟩)
    · rw [Bool.not_eq_true] at hfire
      rw [hfire]
      simp only [Bool.false_eq_true, if_false]
      rw [simulGo_cons]
      cases hio : isO c
      · have h0 : fireS q c (digitO (simulGo (some c) rest).head?)
            (simulGo (some c) rest).isEmpty = false := by
          unfold fireS
          rw [hio]
          rfl
        rw [h0]
        simp only [Bool.false_eq_true, if_false]
        congr 1
        exact ih (some c) (some c) (Or.inl rfl)
      · have hqp : q = p := by
          rcases hq with hq | ⟨-, hd⟩
          · exact hq
          · rw [show ((c :: rest).head?) = some c from rfl, digitO_some] at hd
            rw [digit_not_isO hd] at hio
            cases hio
        have h0 : fireS q c (digitO (simulGo (some c) rest).head?)
            (simulGo (some c) rest).isEmpty = false := by
          rw [hqp, simulGo_head_digit c rest hio, simulGo_isEmpty]
          exact hfire
        rw [h0]
        simp only [Bool.false_eq_true, if_false]
        congr 1
        exact ih (some c) (some c) (Or.inl rfl)

lemma simulO_idem (l : List Char) : simulO (simulO l) = simulO l :=
  simulGo_idem l none none (Or.inl rfl)

lemma oRules_idem (l : List Char) : oRules (oRules l) = oRules l := by
  simp only [oRules_eq_simulO]
  exact simulO_idem l

/-- C4: on reference values containing at least one digit the guarded
o-to-zero phase rewrites o and O to 0 exactly at the three positions of
the simultaneous specification form (between two digits, at the start
before a digit, at the end after a digit, judged in the input string),
and values without a digit are left unchanged; the four reference
examples of the specification evaluate as stated. -/
theorem C4_o_correction (l : List Char) :
    (hasDigit l = true → oPhase l = simulO l) ∧
    (hasDigit l = false → oPhase l = l) ∧
    cleanRefStr "1o2" = "102" ∧ cleanRefStr "o45" = "045" ∧
    cleanRefStr "45o" = "450" ∧ cleanRefStr "abc" = "abc" := by
  refine ⟨fun h => ?_, fun h => ?_, by decide, by decide, by decide, by decide⟩
  · unfold oPhase
    rw [h]
    simp only [if_true]
    exact oRules_eq_simulO l
  · unfold oPhase
    rw [h]
    simp

/-- C4 witness: the digit-containing reference 1o2 goes through the
simultaneous form. -/
theorem C4_o_correction_witness :
    hasDigit ("1o2".data) = true ∧ oPhase ("1o2".data) = simulO ("1o2".data) :=
  ⟨by decide, (C4_o_correction "1o2".data).1 (by decide)⟩

/-! ## Strip, collapse and control-character lemmas -/

/-- The head of the list, if any, is not whitespace. -/
def headNotWS (l : List Char) : Prop :=
  ∀ x, l.head? = some x → isWS x = false

/-- The last element of the list, if any, is not whitespace. -/
def lastNotWS (l : List Char) : Prop :=
  ∀ x, l.getLast? = some x → isWS x = false

/-- No element of the list is a control character. -/
def ctrlFree (l : List Char) : Prop :=
  ∀ x ∈ l, isCtrl x = false

lemma dropWhile_eq_self_of_head {l : List Char} (h : headNotWS l) :
    l.dropWhile isWS = l := by
  cases l with
  | nil => rfl
  | cons c t =>
    rw [List.dropWhile_cons, h c rfl]
    simp

lemma pyStrip_eq_self {l : List Char} (h1 : headNotWS l) (h2 : lastNotWS l) :
    pyStrip l = l := by
  unfold pyStrip
  rw [dropWhile_eq_self_of_head h1]
  have hrev : headNotWS l.reverse := by
    intro x hx
    rw [List.head?_reverse] at hx
    exact h2 x hx
  rw [dropWhile_eq_self_of_head hrev, List.reverse_reverse]

lemma headNotWS_dropWhile (l : List Char) : headNotWS (l.dropWhile isWS) := by
  induction l with
  | nil => intro x hx; cases hx
  | cons c t ih =>
    rw [List.dropWhile_cons]
    by_cases hw : isWS c = true
    · rw [hw]
      simpa using ih
    · rw [Bool.not_eq_true] at hw
      rw [hw]
      intro x hx
      simp only [Bool.false_eq_true, if_false, List.head?_cons, Option.some.injEq] at hx
      rw [← hx]
      exact hw

lemma getLast?_dropWhile_of_ne_nil {l : List Char} {p : Char → Bool}
    (h : l.dropWhile p ≠ []) : (l.dropWhile p).getLast? = l.getLast? := by
  obtain ⟨pre, hpre⟩ := List.dropWhile_suffix p (l := l)
  conv_rhs => rw [← hpre]
  rw [List.getLast?_append_of_ne_nil pre h]

lemma headNotWS_pyStrip (l : List Char) : headNotWS (pyStrip l) := by
  intro x hx
  unfold pyStrip at hx
  rw [List.head?_reverse] at hx
  have hne : (l.dropWhile isWS).reverse.dropWhile isWS ≠ [] := by
    intro hcon
    rw [hcon] at hx
    cases hx
  rw [getLast?_dropWhile_of_ne_nil hne, List.getLast?_reverse] at hx
  exact headNotWS_dropWhile l x hx

lemma lastNotWS_pyStrip (l : List Char) : lastNotWS (pyStrip l) := by
  intro x hx
  unfold pyStrip at hx
  rw [List.getLast?_reverse] at hx
  exact headNotWS_dropWhile _ x hx

lemma pyStrip_idem (l : List Char) : pyStrip (pyStrip l) = pyStrip l :=
  pyStrip_eq_self (headNotWS_pyStrip l) (lastNotWS_pyStrip l)

lemma stripCtrl_eq_self {l : List Char} (h : ctrlFree l) : stripCtrl l = l :=
  List.filter_eq_self.mpr (fun a ha => by rw [h a ha]; rfl)

lemma ctrlFree_pyStrip {l : List Char} (h : ctrlFree l) : ctrlFree (pyStrip l) := by
  intro x hx
  apply h
  unfold pyStrip at hx
  rw [List.mem_reverse] at hx
  have hx2 := List.IsSuffix.mem hx (List.dropWhile_suffix isWS)
  rw [List.mem_reverse] at hx2
  exact List.IsSuffix.mem hx2 (List.dropWhile_suffix isWS)

lemma isWS_space : isWS ' ' = true := by decide

lemma collapseWS_one (c : Char) : collapseWS [c] = [if isWS c then ' ' else c] := rfl

lemma collapseWS_cons2 (c d : Char) (t : List Char) :
    collapseWS (c :: d :: t) =
      if isWS c && isWS d then collapseWS (d :: t)
      else (if isWS c then ' ' else c) :: collapseWS (d :: t) := rfl

lemma collapseWS_head (c : Char) (rest : List Char) :
    ∃ x, (collapseWS (c :: rest)).head? = some x ∧ isWS x = isWS c := by
  induction rest generalizing c with
  | nil =>
    refine ⟨if isWS c then ' ' else c, rfl, ?_⟩
    cases hw : isWS c <;> simp [hw, isWS_space]
  | cons d r2 ih =>
    rw [collapseWS_cons2]
    by_cases hcd : (isWS c && isWS d) = true
    · rw [if_pos hcd]
      obtain ⟨x, hx1, hx2⟩ := ih d
      have hcd2 := hcd
      rw [Bool.and_eq_true] at hcd2
      exact ⟨x, hx1, by rw [hx2, hcd2.2, hcd2.1]⟩
    · rw [if_neg hcd]
      refine ⟨if isWS c then ' ' else c, rfl, ?_⟩
      cases hw : isWS c <;> simp [hw, isWS_space]

lemma collapseWS_last (c : Char) (rest : List Char) :
    ∃ x y, (c :: rest).getLast? = some y ∧
      (collapseWS (c :: rest)).getLast? = some x ∧ isWS x = isWS y := by
  induction rest generalizing c with
  | nil =>
    refine ⟨if isWS c then ' ' else c, c, rfl, rfl, ?_⟩
    cases hw : isWS c <;> simp [hw, isWS_space]
  | cons d r2 ih =>
    obtain ⟨x, y, hy, hx, hxy⟩ := ih d
    rw [collapseWS_cons2]
    by_cases hcd : (isWS c && isWS d) = true
    · rw [if_pos hcd]
      exact ⟨x, y, hy, hx, hxy⟩
    · rw [if_neg hcd]
      cases hL : collapseWS (d :: r2) with
      | nil =>
        rw [hL] at hx
        cases hx
      | cons a t =>
        rw [hL] at hx
        exact ⟨x, y, hy, hx, hxy⟩

/-- The invariant of collapsed text: every whitespace character is a
plain space and no two adjacent characters are both whitespace. -/
def goodWS (l : List Char) : Prop :=
  (∀ x ∈ l, isWS x = true → x = ' ') ∧
    l.Chain' (fun a b => ¬(isWS a = true ∧ isWS b = true))

lemma goodWS_collapseWS (l : List Char) : goodWS (collapseWS l) := by
  induction l with
  | nil => exact ⟨fun x hx => absurd hx (List.not_mem_nil x), List.chain'_nil⟩
  | cons c rest ih =>
    cases rest with
    | nil =>
      rw [collapseWS_one]
      constructor
      · intro x hx hws
        rw [List.mem_singleton] at hx
        subst hx
        cases hw : isWS c
        · rw [hw] at hws
          simp only [Bool.false_eq_true, if_false] at hws
          rw [hw] at hws
          cases hws
        · simp
      · exact List.chain'_singleton _
    | cons d r2 =>
      rw [collapseWS_cons2]
      by_cases hcd : (isWS c && isWS d) = true
      · rw [if_pos hcd]
        exact ih
      · rw [if_neg hcd]
        constructor
        · intro x hx hws
          rcases List.mem_cons.mp hx with hx1 | hx2
          · subst hx1
            cases hw : isWS c
            · rw [hw] at hws
              simp only [Bool.false_eq_true, if_false] at hws
              rw [hw] at hws
              cases hws
            · simp
          · exact ih.1 x hx2 hws
        · rw [List.chain'_cons']
          refine ⟨?_, ih.2⟩
          intro y hy
          obtain ⟨x0, hx0, hx0ws⟩ := collapseWS_head d r2
          have hyx : y = x0 := by
            rw [Option.mem_def, hx0, Option.some.injEq] at hy
            exact hy.symm
          subst hyx
          rintro ⟨hws1, hws2⟩
          rw [hx0ws] at hws2
          cases hw : isWS c
          · rw [hw] at hws1
            simp only [Bool.false_eq_true, if_false] at hws1
            rw [hw] at hws1
            cases hws1
          · rw [hw, Bool.true_and] at hcd
            rw [Bool.not_eq_true] at hcd
            rw [hcd] at hws2
            cases hws2

lemma collapseWS_eq_self {l : List Char} (h : goodWS l) : collapseWS l = l := by
  induction l with
  | nil => rfl
  | cons c rest ih =>
    cases rest with
    | nil =>
      rw [collapseWS_one]
      cases hw : isWS c
      · simp
      · have hc : c = ' ' := h.1 c (List.mem_singleton_self c) hw
        simp [hc]
    | cons d r2 =>
      have hchain := List.chain'_cons.mp h.2
      have hcd : ¬((isWS c && isWS d) = true) := by
        intro hb
        rw [Bool.and_eq_true] at hb
        exact hchain.1 hb
      rw [collapseWS_cons2, if_neg hcd]
      have hrest : goodWS (d :: r2) :=
        ⟨fun x hx => h.1 x (List.mem_cons_of_mem c hx), hchain.2⟩
      rw [ih hrest]
      congr 1
      cases hw : isWS c
      · simp
      · have hc : c = ' ' := h.1 c (List.mem_cons_self c (d :: r2)) hw
        simp [hc]

lemma mem_collapseWS {l : List Char} {x : Char} (hx : x ∈ collapseWS l) :
    x ∈ l ∨ x = ' ' := by
  induction l with
  | nil => cases hx
  | cons c rest ih =>
    cases rest with
    | nil =>
      rw [collapseWS_one, List.mem_singleton] at hx
      subst hx
      cases hw : isWS c
      · simp
      · simp
    | cons d r2 =>
      rw [collapseWS_cons2] at hx
      by_cases hcd : (isWS c && isWS d) = true
      · rw [if_pos hcd] at hx
        rcases ih hx with h1 | h1
        · exact Or.inl (List.mem_cons_of_mem c h1)
        · exact Or.inr h1
      · rw [if_neg hcd] at hx
        rcases List.mem_cons.mp hx with hx1 | hx2
        · subst hx1
          cases hw : isWS c
          · simp
          · simp
        · rcases ih hx2 with h1 | h1
          · exact Or.inl (List.mem_cons_of_mem c h1)
          · exact Or.inr h1

lemma mem_simulGo {l : List Char} {x : Char} :
    ∀ p, x ∈ simulGo p l → x ∈ l ∨ x = '0' := by
  induction l with
  | nil => intro p hx; cases hx
  | cons c rest ih =>
    intro p hx
    rw [simulGo_cons] at hx
    rcases List.mem_cons.mp hx with hx1 | hx2
    · by_cases hf : fireS p c (digitO rest.head?) rest.isEmpty = true
      · rw [if_pos hf] at hx1
        exact Or.inr hx1
      · rw [if_neg hf] at hx1
        exact Or.inl (hx1 ▸ List.mem_cons_self c rest)
    · rcases ih (some c) hx2 with h1 | h1
      · exact Or.inl (List.mem_cons_of_mem c h1)
      · exact Or.inr h1

lemma hasDigit_simulGo {l : List Char} (h : hasDigit l = true) :
    ∀ p, hasDigit (simulGo p l) = true := by
  induction l with
  | nil => cases h
  | cons c rest ih =>
    intro p
    rw [simulGo_cons]
    unfold hasDigit at h ⊢
    rw [List.any_cons] at h ⊢
    rcases Bool.or_eq_true_iff.mp h with h1 | h1
    · have hf : fireS p c (digitO rest.head?) rest.isEmpty = false := by
        unfold fireS
        rw [digit_not_isO h1]
        rfl
      rw [if_neg (by rw [hf]; simp)]
      rw [h1]
      rfl
    · have h2 := ih h1 (some c)
      unfold hasDigit at h2
      rw [h2]
      simp

lemma getLast?_simulGo (l : List Char) :
    ∀ p, l = [] ∨ ∃ x y, l.getLast? = some y ∧
      (simulGo p l).getLast? = some x ∧ (x = y ∨ x = '0') := by
  induction l with
  | nil => intro p; exact Or.inl rfl
  | cons c rest ih =>
    intro p
    right
    cases rest with
    | nil =>
      refine ⟨if fireS p c (digitO ([] : List Char).head?) true then '0' else c,
        c, rfl, rfl, ?_⟩
      by_cases hf : fireS p c (digitO ([] : List Char).head?) true = true
      · rw [if_pos hf]
        exact Or.inr rfl
      · rw [if_neg hf]
        exact Or.inl rfl
    | cons d r2 =>
      rcases ih (some c) with h1 | ⟨x, y, hy, hx, hxy⟩
      · cases h1
      · rw [simulGo_cons]
        refine ⟨x, y, hy, ?_, hxy⟩
        rw [simulGo_cons] at hx ⊢
        exact hx

lemma cleanNameList_idem {l : List Char} (h : ctrlFree l) :
    cleanNameList (cleanNameList l) = cleanNameList l := by
  have hu : ctrlFree (pyStrip l) := ctrlFree_pyStrip h
  have hv : ctrlFree (collapseWS (pyStrip l)) := by
    intro x hx
    rcases mem_collapseWS hx with h1 | h1
    · exact hu x h1
    · rw [h1]
      decide
  have hstep : cleanNameList l = collapseWS (pyStrip l) := by
    unfold cleanNameList
    exact stripCtrl_eq_self hv
  rw [hstep]
  have hhead : headNotWS (collapseWS (pyStrip l)) := by
    intro x hx
    cases hp : pyStrip l with
    | nil =>
      rw [hp] at hx
      cases hx
    | cons c rest =>
      rw [hp] at hx
      obtain ⟨x0, hx0, hws⟩ := collapseWS_head c rest
      rw [hx0, Option.some.injEq] at hx
      rw [← hx, hws]
      exact headNotWS_pyStrip l c (by rw [hp]; rfl)
  have hlast : lastNotWS (collapseWS (pyStrip l)) := by
    intro x hx
    cases hp : pyStrip l with
    | nil =>
      rw [hp] at hx
      cases hx
    | cons c rest =>
      rw [hp] at hx
      obtain ⟨x1, y1, hy1, hx1, hxy1⟩ := collapseWS_last c rest
      rw [hx1, Option.some.injEq] at hx
      rw [← hx, hxy1]
      exact lastNotWS_pyStrip l y1 (by rw [hp]; exact hy1)
  unfold cleanNameList
  rw [pyStrip_eq_self hhead hlast,
    collapseWS_eq_self (goodWS_collapseWS (pyStrip l))]
  exact stripCtrl_eq_self hv

lemma cleanRefList_idem {l : List Char} (h : ctrlFree l) :
    cleanRefList (cleanRefList l) = cleanRefList l := by
  have hu : ctrlFree (pyStrip l) := ctrlFree_pyStrip h
  have hstep : cleanRefList l = oPhase (pyStrip l) := by
    unfold cleanRefList
    rw [stripCtrl_eq_self hu]
  rw [hstep]
  by_cases hd : hasDigit (pyStrip l) = true
  · have hop : oPhase (pyStrip l) = simulO (pyStrip l) := by
      unfold oPhase
      rw [hd]
      simp only [if_true]
      exact oRules_eq_simulO _
    rw [hop]
    have htc : ctrlFree (simulO (pyStrip l)) := by
      intro x hx
      rcases mem_simulGo none hx with h1 | h1
      · exact hu x h1
      · rw [h1]
        decide
    have hthead : headNotWS (simulO (pyStrip l)) := by
      intro x hx
      cases hp : pyStrip l with
      | nil =>
        rw [hp] at hx
        cases hx
      | cons c rest =>
        unfold simulO at hx
        rw [hp, simulGo_cons, List.head?_cons, Option.some.injEq] at hx
        by_cases hf : fireS none c (digitO rest.head?) rest.isEmpty = true
        · rw [if_pos hf] at hx
          rw [← hx]
          decide
        · rw [if_neg hf] at hx
          rw [← hx]
          exact headNotWS_pyStrip l c (by rw [hp]; rfl)
    have htlast : lastNotWS (simulO (pyStrip l)) := by
      intro x hx
      rcases getLast?_simulGo (pyStrip l) none with h1 | ⟨x1, y1, hy1, hx1, hxy1⟩
      · unfold simulO at hx
        rw [h1] at hx
        cases hx
      · unfold simulO at hx
        rw [hx1, Option.some.injEq] at hx
        rcases hxy1 with h2 | h2
        · rw [← hx, h2]
          exact lastNotWS_pyStrip l y1 hy1
        · rw [← hx, h2]
          decide
    have hdt : hasDigit (simulO (pyStrip l)) = true := hasDigit_simulGo hd none
    unfold cleanRefList
    rw [pyStrip_eq_self hthead htlast, stripCtrl_eq_self htc]
    unfold oPhase
    rw [hdt]
    simp only [if_true]
    rw [oRules_eq_simulO]
    exact simulO_idem (pyStrip l)
  · rw [Bool.not_eq_true] at hd
    have hop : oPhase (pyStrip l) = pyStrip l := by
      unfold oPhase
      rw [hd]
      simp
    rw [hop]
    unfold cleanRefList
    rw [pyStrip_idem l, stripCtrl_eq_self hu]
    exact hop

/-- C3 counterexample: on the input consisting of a control character, a
space and the letter a, the control character shields the space from the
trim, the control strip then exposes it, and the second cleaning pass
removes it, so neither the name cleaning nor the reference cleaning is
idempotent on this value. -/
theorem C3_counterexample :
    ¬(cleanNameStr (cleanNameStr "\x01 a") = cleanNameStr "\x01 a" ∧
      cleanRefStr (cleanRefStr "\x01 a") = cleanRefStr "\x01 a") := by
  decide

/-- C3 amended: for every input string free of the ASCII control
characters (code points 0-31 and 127-159), the name cleaning and the
reference cleaning are both idempotent. -/
theorem C3_idempotent_ctrl_free (s : String)
    (h : ∀ x ∈ s.data, isCtrl x = false) :
    cleanNameStr (cleanNameStr s) = cleanNameStr s ∧
    cleanRefStr (cleanRefStr s) = cleanRefStr s :=
  ⟨congrArg String.mk (cleanNameList_idem h),
    congrArg String.mk (cleanRefList_idem h)⟩

/-- C3 witness: idempotence on a concrete control-free value. -/
theorem C3_idempotent_ctrl_free_witness :
    (∀ x ∈ ("  x  1o  " : String).data, isCtrl x = false) ∧
    (cleanNameStr (cleanNameStr "  x  1o  ") = cleanNameStr "  x  1o  " ∧
      cleanRefStr (cleanRefStr "  x  1o  ") = cleanRefStr "  x  1o  ") :=
  ⟨by decide, C3_idempotent_ctrl_free "  x  1o  " (by decide)⟩

/-! ## Mutation model for the call frame -/

/-- A write of a whole-frame transformation into one heap cell, the
model of a pandas in-place column assignment on the frame stored
there. -/
def setFrame (h : List DataFrame) (ref : Nat) (f : DataFrame → DataFrame) :
    List DataFrame :=
  h.set ref (f (h.getD ref ⟨[], []⟩))

/-- Name-column pass over a frame (comb.py lines 37-44). -/
def namePass (n : String) (d : DataFrame) : DataFrame :=
  ⟨d.cols, d.rows.map (fun row =>
    row.set (colIdx d n) (cleanNameCell (getCell row (colIdx d n))))⟩

/-- Reference-column pass over a frame (comb.py lines 52-67). -/
def refPass (r : String) (d : DataFrame) : DataFrame :=
  ⟨d.cols, d.rows.map (fun row =>
    row.set (colIdx d r) (cleanRefCell (getCell row (colIdx d r))))⟩

/-- Body of the heap model, with the caller frame made explicit.  After
the guards, the caller frame is copied into a fresh cell, both cleaning
passes write into that cell, the key column is added to the copy and
dropped from the returned partitions (comb.py lines 72-79), and a
selected column named _temp_key makes lines 88-91 raise. -/
def cleanBodyGo (h0 : List DataFrame) (df : DataFrame) (n r : String) :
    List DataFrame × Except String (DataFrame × DataFrame × List String) :=
  if n ∉ df.cols then
    (h0, Except.error ("Colonne \x27" ++ n ++ "\x27 non trouvée dans le DataFrame"))
  else if r ∉ df.cols then
    (h0, Except.error ("Colonne \x27" ++ r ++ "\x27 non trouvée dans le DataFrame"))
  else
    let cleanedRef := h0.length
    let h1 := h0 ++ [df]
    let h2 := setFrame h1 cleanedRef (namePass n)
    let h3 := setFrame h2 cleanedRef (refPass r)
    let cleaned := h3.getD cleanedRef ⟨[], []⟩
    let ni := colIdx cleaned n
    let ri := colIdx cleaned r
    let rows := cleaned.rows
    (h3,
      if n = tempKeyCol ∨ r = tempKeyCol then
        Except.error "KeyError: \x27_temp_key\x27"
      else
        Except.ok
          (⟨outColsOf cleaned,
              (rows.filter (fun row => !isDupRow ni ri rows row)).map
                (outRowOf cleaned ni ri)⟩,
           ⟨outColsOf cleaned,
              (rows.filter (fun row => isDupRow ni ri rows row)).map
                (outRowOf cleaned ni ri)⟩,
           warningsOf df n r))

/-- Heap model of a call to `clean_inventory_data`: the caller's frame
lives in cell `dfRef`; line 30 copies it into a fresh cell, and both
cleaning passes and the key-column write target only that fresh cell;
the partitions are built from the copied cell and returned by value
(the `.copy()` calls of lines 78-79), and the final heap is returned
alongside the result. -/
def cleanBody (h0 : List DataFrame) (dfRef : Nat) (n r : String) :
    List DataFrame × Except String (DataFrame × DataFrame × List String) :=
  cleanBodyGo h0 (h0.getD dfRef ⟨[], []⟩) n r

/-- C10: the call never mutates the caller's table.  In the heap model
the caller's cell holds exactly its original value after the call, and
the returned value agrees with the pure embedding of the function. -/
theorem C10_no_mutation (df : DataFrame) (n r : String) :
    (cleanBody [df] 0 n r).1.getD 0 ⟨[], []⟩ = df ∧
    (cleanBody [df] 0 n r).2 = clean_inventory_data df n r := by
  show (cleanBodyGo [df] df n r).1.getD 0 ⟨[], []⟩ = df ∧
    (cleanBodyGo [df] df n r).2 = clean_inventory_data df n r
  unfold cleanBodyGo clean_inventory_data
  by_cases hn : n ∈ df.cols
  · by_cases hr : r ∈ df.cols
    · rw [if_neg (not_not.mpr hn), if_neg (not_not.mpr hr),
        if_neg (not_not.mpr hn), if_neg (not_not.mpr hr)]
      constructor
      · rfl
      · show (if n = tempKeyCol ∨ r = tempKeyCol then
              Except.error "KeyError: \x27_temp_key\x27"
            else
              Except.ok
                ((⟨outColsOf (refPass r (namePass n df)),
                    ((refPass r (namePass n df)).rows.filter
                      (fun row => !isDupRow (colIdx (refPass r (namePass n df)) n)
                        (colIdx (refPass r (namePass n df)) r)
                        (refPass r (namePass n df)).rows row)).map
                      (outRowOf (refPass r (namePass n df))
                        (colIdx (refPass r (namePass n df)) n)
                        (colIdx (refPass r (namePass n df)) r))⟩ : DataFrame),
                 (⟨outColsOf (refPass r (namePass n df)),
                    ((refPass r (namePass n df)).rows.filter
                      (fun row => isDupRow (colIdx (refPass r (namePass n df)) n)
                        (colIdx (refPass r (namePass n df)) r)
                        (refPass r (namePass n df)).rows row)).map
                      (outRowOf (refPass r (namePass n df))
                        (colIdx (refPass r (namePass n df)) n)
                        (colIdx (refPass r (namePass n df)) r))⟩ : DataFrame),
                 warningsOf df n r)) =
          (if n = tempKeyCol ∨ r = tempKeyCol then
              Except.error "KeyError: \x27_temp_key\x27"
            else
              Except.ok ((⟨outColsOf df, uniqueRowsOf df n r⟩ : DataFrame),
                (⟨outColsOf df, dupRowsOf df n r⟩ : DataFrame), warningsOf df n r))
        by_cases hk : n = tempKeyCol ∨ r = tempKeyCol
        · rw [if_pos hk, if_pos hk]
        · rw [if_neg hk, if_neg hk]
          have hm : (refPass r (namePass n df)).rows = cleanedRows df n r := by
            show (df.rows.map _).map _ = df.rows.map _
            rw [List.map_map]
            rfl
          rw [Except.ok.injEq, Prod.mk.injEq, Prod.mk.injEq]
          refine ⟨?_, ?_, rfl⟩
          · rw [DataFrame.mk.injEq]
            refine ⟨rfl, ?_⟩
            rw [hm]
            rfl
          · rw [DataFrame.mk.injEq]
            refine ⟨rfl, ?_⟩
            rw [hm]
            rfl
    · rw [if_neg (not_not.mpr hn), if_pos hr, if_neg (not_not.mpr hn), if_pos hr]
      exact ⟨rfl, rfl⟩
  · rw [if_pos hn, if_pos hn]
    exact ⟨rfl, rfl⟩

end Comb
